import Mathlib

/-
Verification development for the sqlz SELECT-statement builder
(package sqlz, file jsonb.go).

The development shallowly embeds the two subsystems of the source:

* the JSONB expression builder (BuildJSONBObject / BuildJSONBArray /
  JSONBBuilder.Parse), which renders a dynamic Go value tree into a
  jsonb_build_object(...) / jsonb_build_array(...) SQL expression with
  positional placeholders and a binding list, and

* the SELECT statement tree (SelectStmt, JoinClause, LockClause,
  OrderColumn) with its configuration methods and the ToSQL renderer.

Go specifics are modelled as follows: a dynamic value
(an empty-interface value) is the inductive type GoVal; a Go map from
string to dynamic value is an association list whose earliest entry for
a key is the map entry (lookup is first match); iterating a map's keys
yields each distinct key once, modelled with dedup.  Machine integers
(int64, int8, int) are modelled as Int.  Code that can panic
(JoinType.String indexes a fixed four-element list) returns Option,
with none standing for the aborted computation.
-/

set_option maxHeartbeats 1000000

namespace Sqlz

/-- A dynamic Go value as stored in builder bindings.  Values that are
neither a string-keyed map nor a slice are opaque scalars tagged by a
string; a map is an association list (first entry for a key wins, as a
Go map holds one entry per key); a slice is a list. -/
inductive GoVal : Type where
  | scalar (s : String)
  | obj (fields : List (String × GoVal))
  | arr (elems : List GoVal)

/-- Go strings.Join: concatenates the elements of the list, placing the
separator between consecutive elements. -/
def stringsJoin : List String → String → String
  | [], _ => ""
  | [a], _ => a
  | a :: b :: rest, sep => a ++ sep ++ stringsJoin (b :: rest) sep

/-- Number of question-mark placeholder characters in a string. -/
def countQ (s : String) : Nat :=
  s.toList.count '?'

/-- Go map lookup in the association-list model: the first entry for
the key; the zero value (an empty scalar, standing for a nil interface
value) when the key is absent. -/
def mapGet (m : List (String × GoVal)) (key : String) : GoVal :=
  (List.lookup key m).getD (GoVal.scalar "")

/-- The set of keys of the Go map modelled by the association list:
each distinct key once, in first-appearance order. -/
def mapKeys (m : List (String × GoVal)) : List String :=
  (m.map Prod.fst).dedup

/-- Go sort.Strings: sorts a list of strings in ascending
lexicographic order. -/
def sortStrings (l : List String) : List String :=
  l.mergeSort (fun a b => a ≤ b)

/- Weight measure for the recursion of JSONBBuilder.Parse. -/
mutual

def GoVal.weight : GoVal → Nat
  | .scalar _ => 1
  | .obj fields => 1 + weightFields fields
  | .arr elems => 1 + weightElems elems

def weightFields : List (String × GoVal) → Nat
  | [] => 0
  | (_, v) :: rest => 2 + v.weight + weightFields rest

def weightElems : List GoVal → Nat
  | [] => 0
  | v :: rest => v.weight + weightElems rest

end

/-- JSONBBuilder from jsonb.go: Array tells whether the expression is a
jsonb_build_array (else jsonb_build_object); Bindings is the flat list
of pending values (keys interleaved with values for an object). -/
structure JSONBBuilder where
  Array : Bool
  Bindings : List GoVal

/-- Binding list assembled by BuildJSONBObject: for each key (in the
order of the given key list) the key itself then the mapped value. -/
def objBindings (m : List (String × GoVal)) : List String → List GoVal
  | [] => []
  | key :: rest => GoVal.scalar key :: mapGet m key :: objBindings m rest

/-- BuildJSONBObject from jsonb.go: collects the map's keys, sorts
them, and records key and value for each key in sorted order. -/
def BuildJSONBObject (m : List (String × GoVal)) : JSONBBuilder :=
  { Array := false, Bindings := objBindings m (sortStrings (mapKeys m)) }

/-- BuildJSONBArray from jsonb.go: records the given values in order. -/
def BuildJSONBArray (l : List GoVal) : JSONBBuilder :=
  { Array := true, Bindings := l }

theorem GoVal.weight_pos (v : GoVal) : 0 < v.weight := by
  cases v <;> simp [GoVal.weight, weightFields, weightElems]

/-- Sum of the value weights of an association list. -/
def valsWeight : List (String × GoVal) → Nat
  | [] => 0
  | (_, v) :: rest => v.weight + valsWeight rest

theorem weightFields_eq (m : List (String × GoVal)) :
    weightFields m = 2 * m.length + valsWeight m := by
  induction m with
  | nil => simp [weightFields, valsWeight]
  | cons p rest ih =>
    obtain ⟨k, v⟩ := p
    simp [weightFields, valsWeight, ih]
    omega

theorem weightElems_objBindings (m : List (String × GoVal)) (ks : List String) :
    weightElems (objBindings m ks)
      = ks.length + (ks.map (fun k => (mapGet m k).weight)).sum := by
  induction ks with
  | nil => simp [objBindings, weightElems]
  | cons k rest ih =>
    simp [objBindings, weightElems, GoVal.weight, ih]
    omega

theorem mapGet_weight_sum_le (m : List (String × GoVal)) (K : List String)
    (hnd : K.Nodup) (hmem : ∀ k ∈ K, k ∈ m.map Prod.fst) :
    (K.map (fun k => (mapGet m k).weight)).sum ≤ valsWeight m := by
  induction m generalizing K with
  | nil =>
    have : K = [] := by
      cases K with
      | nil => rfl
      | cons a t => exact absurd (hmem a (by simp)) (by simp)
    simp [this, valsWeight]
  | cons p rest ih =>
    obtain ⟨a, v⟩ := p
    by_cases ha : a ∈ K
    · have hperm : K.Perm (a :: K.erase a) := List.perm_cons_erase ha
      have hsum : (K.map (fun k => (mapGet ((a, v) :: rest) k).weight)).sum
          = ((a :: K.erase a).map (fun k => (mapGet ((a, v) :: rest) k).weight)).sum :=
        (hperm.map _).sum_eq
      have hget_a : mapGet ((a, v) :: rest) a = v := by
        simp [mapGet, List.lookup]
      have hrw : ∀ k ∈ K.erase a,
          mapGet ((a, v) :: rest) k = mapGet rest k := by
        intro k hk
        have hne : k ≠ a := ((List.Nodup.mem_erase_iff hnd).mp hk).1
        simp [mapGet, List.lookup, beq_false_of_ne hne]
      have hmem2 : ∀ k ∈ K.erase a, k ∈ rest.map Prod.fst := by
        intro k hk
        have hne : k ≠ a := ((List.Nodup.mem_erase_iff hnd).mp hk).1
        have : k ∈ K := ((List.Nodup.mem_erase_iff hnd).mp hk).2
        have := hmem k this
        simpa [hne] using this
      have hmap : (K.erase a).map (fun k => (mapGet ((a, v) :: rest) k).weight)
          = (K.erase a).map (fun k => (mapGet rest k).weight) :=
        List.map_congr_left (fun k hk => by rw [hrw k hk])
      have ih2 := ih (K.erase a) (hnd.erase a) hmem2
      calc (K.map (fun k => (mapGet ((a, v) :: rest) k).weight)).sum
          = v.weight + ((K.erase a).map (fun k => (mapGet rest k).weight)).sum := by
            rw [hsum]; simp [hget_a, hmap]
        _ ≤ v.weight + valsWeight rest := by omega
        _ = valsWeight ((a, v) :: rest) := by simp [valsWeight]
    · have hrw : ∀ k ∈ K, mapGet ((a, v) :: rest) k = mapGet rest k := by
        intro k hk
        have hne : k ≠ a := fun h => ha (h ▸ hk)
        simp [mapGet, List.lookup, beq_false_of_ne hne]
      have hmem2 : ∀ k ∈ K, k ∈ rest.map Prod.fst := by
        intro k hk
        have hne : k ≠ a := fun h => ha (h ▸ hk)
        have := hmem k hk
        simpa [hne] using this
      have hmap : K.map (fun k => (mapGet ((a, v) :: rest) k).weight)
          = K.map (fun k => (mapGet rest k).weight) :=
        List.map_congr_left (fun k hk => by rw [hrw k hk])
      have ih2 := ih K hnd hmem2
      have hv : 0 < v.weight := GoVal.weight_pos v
      calc (K.map (fun k => (mapGet ((a, v) :: rest) k).weight)).sum
          = (K.map (fun k => (mapGet rest k).weight)).sum := by rw [hmap]
        _ ≤ valsWeight rest := ih2
        _ ≤ valsWeight ((a, v) :: rest) := by simp [valsWeight]

theorem weightElems_buildObj_lt (m : List (String × GoVal)) :
    weightElems (BuildJSONBObject m).Bindings < GoVal.weight (GoVal.obj m) := by
  have hperm : (sortStrings (mapKeys m)).Perm (mapKeys m) :=
    List.mergeSort_perm (mapKeys m) _
  have hlen : (sortStrings (mapKeys m)).length = (mapKeys m).length :=
    hperm.length_eq
  have hlen2 : (mapKeys m).length ≤ m.length := by
    have := (List.dedup_sublist (m.map Prod.fst)).length_le
    simpa [mapKeys] using this
  have hsum : ((sortStrings (mapKeys m)).map (fun k => (mapGet m k).weight)).sum
      = ((mapKeys m).map (fun k => (mapGet m k).weight)).sum :=
    (hperm.map _).sum_eq
  have hnd : (mapKeys m).Nodup := List.nodup_dedup _
  have hmem : ∀ k ∈ mapKeys m, k ∈ m.map Prod.fst := by
    intro k hk
    exact List.dedup_subset _ hk
  have hle := mapGet_weight_sum_le m (mapKeys m) hnd hmem
  have heq := weightElems_objBindings m (sortStrings (mapKeys m))
  have hw := weightFields_eq m
  simp only [BuildJSONBObject] at heq ⊢
  rw [heq, hlen, hsum]
  simp only [GoVal.weight, hw]
  omega

theorem weightElems_le_of_mem {v : GoVal} {l : List GoVal} (h : v ∈ l) :
    v.weight ≤ weightElems l := by
  induction l with
  | nil => cases h
  | cons a rest ih =>
    rcases List.mem_cons.mp h with h1 | h2
    · subst h1; simp [weightElems]
    · have := ih h2
      simp [weightElems]
      omega

mutual

/-- JSONBBuilder.Parse from jsonb.go: renders the builder to SQL text
plus bindings, walking the pending bindings via parseEntries. -/
def JSONBBuilder.Parse (b : JSONBBuilder) : String × List GoVal :=
  let pb := parseEntries b.Bindings
  ("jsonb_build_" ++ (if b.Array then "array(" else "object(")
     ++ stringsJoin pb.1 ", " ++ ")", pb.2)
termination_by (weightElems b.Bindings, 1)
decreasing_by
  exact Prod.Lex.right _ (by omega)

/-- Loop body of JSONBBuilder.Parse: for each pending value, a plain
value emits a question-mark placeholder and one binding; a nested map
or slice is rendered recursively, splicing its sub-expression text in
place and its bindings in order. -/
def parseEntries : List GoVal → List String × List GoVal
  | [] => ([], [])
  | val :: rest =>
    let pb :=
      match val with
      | GoVal.obj m => (BuildJSONBObject m).Parse
      | GoVal.arr l => (BuildJSONBArray l).Parse
      | GoVal.scalar s => ("?", [GoVal.scalar s])
    let pr := parseEntries rest
    (pb.1 :: pr.1, pb.2 ++ pr.2)
termination_by l => (weightElems l, 0)
decreasing_by
  · apply Prod.Lex.left
    have := weightElems_buildObj_lt m
    simp [weightElems] at *
    omega
  · apply Prod.Lex.left
    simp [BuildJSONBArray, weightElems, GoVal.weight]
    omega
  · apply Prod.Lex.left
    simp only [weightElems]
    exact Nat.lt_add_of_pos_left (GoVal.weight_pos _)

end

theorem countQ_append (a b : String) : countQ (a ++ b) = countQ a + countQ b := by
  simp [countQ, List.count_append]

theorem countQ_stringsJoin_comma (l : List String) :
    countQ (stringsJoin l ", ") = (l.map countQ).sum := by
  induction l with
  | nil => simp [stringsJoin, countQ]
  | cons a rest ih =>
    cases rest with
    | nil => simp [stringsJoin]
    | cons b t =>
      have h2 : countQ ", " = 0 := by decide
      simp only [stringsJoin] at ih ⊢
      rw [countQ_append, countQ_append, h2, ih]
      simp

theorem entries_count_aux : ∀ (n : Nat) (l : List GoVal), weightElems l ≤ n →
    ((parseEntries l).1.map countQ).sum = (parseEntries l).2.length := by
  intro n
  induction n with
  | zero =>
    intro l hl
    cases l with
    | nil => simp [parseEntries]
    | cons v rest =>
      have := GoVal.weight_pos v
      simp [weightElems] at hl
      omega
  | succ n ih =>
    intro l hl
    cases l with
    | nil => simp [parseEntries]
    | cons val rest =>
      have hrest : weightElems rest ≤ n := by
        have := GoVal.weight_pos val
        simp [weightElems] at hl
        omega
      have hr := ih rest hrest
      cases val with
      | scalar s =>
        simp only [parseEntries]
        simp [countQ, hr]
        omega
      | obj m =>
        have hsub : weightElems (BuildJSONBObject m).Bindings ≤ n := by
          have h1 := weightElems_buildObj_lt m
          simp [weightElems] at hl
          omega
        have hself := ih _ hsub
        have hjb : countQ "jsonb_build_" = 0 := by decide
        have hcp : countQ ")" = 0 := by decide
        have hob : countQ "object(" = 0 := by decide
        simp only [parseEntries, JSONBBuilder.Parse, BuildJSONBObject,
          List.map_cons, List.sum_cons, List.length_append]
        rw [countQ_append, countQ_append, countQ_append, countQ_stringsJoin_comma]
        simp only [BuildJSONBObject] at hself
        simp [hjb, hcp, hob, hself, hr]
      | arr a =>
        have hsub : weightElems (BuildJSONBArray a).Bindings ≤ n := by
          simp only [BuildJSONBArray]
          simp [weightElems, GoVal.weight] at hl
          omega
        have hself := ih _ hsub
        have hjb : countQ "jsonb_build_" = 0 := by decide
        have hcp : countQ ")" = 0 := by decide
        have har : countQ "array(" = 0 := by decide
        simp only [parseEntries, JSONBBuilder.Parse, BuildJSONBArray,
          List.map_cons, List.sum_cons, List.length_append]
        rw [countQ_append, countQ_append, countQ_append, countQ_stringsJoin_comma]
        simp only [BuildJSONBArray] at hself
        simp [hjb, hcp, har, hself, hr]

theorem parse_count_of_entries (b : JSONBBuilder)
    (h : ((parseEntries b.Bindings).1.map countQ).sum
          = (parseEntries b.Bindings).2.length) :
    countQ b.Parse.1 = b.Parse.2.length := by
  rw [JSONBBuilder.Parse]
  simp only
  rw [countQ_append, countQ_append, countQ_append, countQ_stringsJoin_comma, h]
  have h1 : countQ "jsonb_build_" = 0 := by decide
  have h2 : countQ ")" = 0 := by decide
  have h3 : countQ (if b.Array then "array(" else "object(") = 0 := by
    cases hA : b.Array <;> simp [hA] <;> decide
  omega

/-- C1: for every JSONBBuilder (however built, including arbitrarily
nested maps and slices as values), Parse returns SQL text and a binding
list in which the number of question-mark placeholders equals the
length of the binding list; nested sub-expressions are spliced
depth-first together with their bindings by parseEntries, so the N-th
placeholder lines up with the N-th binding. -/
theorem parse_placeholders_match_bindings (b : JSONBBuilder) :
    countQ b.Parse.1 = b.Parse.2.length :=
  parse_count_of_entries b
    (entries_count_aux (weightElems b.Bindings) b.Bindings (Nat.le_refl _))

theorem lookup_eq_of_perm {l1 l2 : List (String × GoVal)} (h : l1.Perm l2) :
    (l1.map Prod.fst).Nodup → ∀ k, List.lookup k l1 = List.lookup k l2 := by
  induction h with
  | nil => intro _ _; rfl
  | cons x h ih =>
    intro hnd k
    obtain ⟨a, v⟩ := x
    by_cases hk : k = a
    · subst hk; simp [List.lookup]
    · simp only [List.lookup, beq_false_of_ne hk]
      exact ih (by simp at hnd; exact hnd.2) k
  | swap x y l =>
    intro hnd k
    obtain ⟨a, v⟩ := x
    obtain ⟨c, w⟩ := y
    have hac : c ≠ a := by
      simp [List.nodup_cons] at hnd
      tauto
    by_cases hk1 : k = a
    · subst hk1
      simp [List.lookup, beq_false_of_ne (fun h1 => hac h1.symm)]
    · by_cases hk2 : k = c
      · subst hk2
        simp [List.lookup, beq_false_of_ne hk1]
      · simp [List.lookup, beq_false_of_ne hk1, beq_false_of_ne hk2]
  | trans h1 h2 ih1 ih2 =>
    intro hnd k
    have hnd2 := ((h1.map Prod.fst).nodup_iff).mp hnd
    rw [ih1 hnd k, ih2 hnd2 k]

theorem sortStrings_eq_of_perm {l1 l2 : List String} (h : l1.Perm l2) :
    sortStrings l1 = sortStrings l2 := by
  have hp : (sortStrings l1).Perm (sortStrings l2) :=
    ((List.mergeSort_perm l1 _).trans h).trans (List.mergeSort_perm l2 _).symm
  have htrans : ∀ (a b c : String),
      (fun a b : String => (a ≤ b : Bool)) a b = true →
      (fun a b : String => (a ≤ b : Bool)) b c = true →
      (fun a b : String => (a ≤ b : Bool)) a c = true := by
    intro a b c hab hbc
    simp at hab hbc ⊢
    exact le_trans hab hbc
  have htotal : ∀ (a b : String),
      ((fun a b : String => (a ≤ b : Bool)) a b
        || (fun a b : String => (a ≤ b : Bool)) b a) = true := by
    intro a b
    simp [le_total]
  have hs1 : List.Sorted (· ≤ ·) (sortStrings l1) :=
    (List.sorted_mergeSort htrans htotal l1).imp (fun hab => by simpa using hab)
  have hs2 : List.Sorted (· ≤ ·) (sortStrings l2) :=
    (List.sorted_mergeSort htrans htotal l2).imp (fun hab => by simpa using hab)
  exact List.eq_of_perm_of_sorted hp hs1 hs2

theorem objBindings_congr (m1 m2 : List (String × GoVal))
    (h : ∀ k, mapGet m1 k = mapGet m2 k) (ks : List String) :
    objBindings m1 ks = objBindings m2 ks := by
  induction ks with
  | nil => rfl
  | cons k rest ih => simp [objBindings, h k, ih]

theorem buildJSONBObject_perm_eq (m1 m2 : List (String × GoVal))
    (hperm : m1.Perm m2) (hnd : (m1.map Prod.fst).Nodup) :
    BuildJSONBObject m1 = BuildJSONBObject m2 := by
  have hkeys : sortStrings (mapKeys m1) = sortStrings (mapKeys m2) :=
    sortStrings_eq_of_perm ((hperm.map Prod.fst).dedup)
  have hget : ∀ k, mapGet m1 k = mapGet m2 k := by
    intro k
    simp [mapGet, lookup_eq_of_perm hperm hnd k]
  simp only [BuildJSONBObject, hkeys]
  rw [objBindings_congr m1 m2 hget]

/-- C9: building a JSONB object expression from the same logical
key-to-value mapping produces byte-identical SQL text regardless of
insertion order: for two association lists that are permutations of
the same key-value pairs (with distinct keys, as in a Go map),
BuildJSONBObject sorts the keys, so Parse returns the same SQL
string. -/
theorem jsonb_object_sorted_determinism (m1 m2 : List (String × GoVal))
    (hperm : m1.Perm m2) (hnd : (m1.map Prod.fst).Nodup) :
    (BuildJSONBObject m1).Parse.1 = (BuildJSONBObject m2).Parse.1 := by
  rw [buildJSONBObject_perm_eq m1 m2 hperm hnd]

/-- Witness for C9 at a concrete pair of insertion orders. -/
theorem jsonb_object_sorted_determinism_witness :
    ([(("b" : String), GoVal.scalar "1"), ("a", GoVal.obj [("x", GoVal.scalar "2")])].Perm
       [("a", GoVal.obj [("x", GoVal.scalar "2")]), ("b", GoVal.scalar "1")])
    ∧ (BuildJSONBObject
         [("b", GoVal.scalar "1"), ("a", GoVal.obj [("x", GoVal.scalar "2")])]).Parse.1
      = (BuildJSONBObject
         [("a", GoVal.obj [("x", GoVal.scalar "2")]), ("b", GoVal.scalar "1")]).Parse.1 :=
  ⟨List.Perm.swap _ _ _,
   jsonb_object_sorted_determinism _ _ (List.Perm.swap _ _ _) (by simp)⟩

/-
The SELECT statement tree and its renderer (jsonb.go, statement part).
-/

/- JoinType from jsonb.go is a Go int naming a join kind; it is
modelled as a plain Int. -/

def InnerJoin : Int := 0
def LeftJoin : Int := 1
def RightJoin : Int := 2
def FullJoin : Int := 3

/-- JoinType.String from jsonb.go indexes the literal four-element
list and appends the JOIN keyword; indexing outside the list is a Go
panic, modelled as none. -/
def JoinType.String (j : Int) : Option String :=
  if 0 ≤ j then
    (["INNER", "LEFT", "RIGHT", "FULL"][j.toNat]?).map (fun s => s ++ " JOIN")
  else none

/- LockStrength and LockWait from jsonb.go are Go int8 values; they
are modelled as plain Int. -/

def LockForUpdate : Int := 0
def LockForNoKeyUpdate : Int := 1
def LockForShare : Int := 2
def LockForKeyShare : Int := 3

def LockDefault : Int := 0
def LockNoWait : Int := 1
def LockSkipLocked : Int := 2

/-- LockClause from jsonb.go. -/
structure LockClause where
  Strength : Int
  Tables : List String
  Wait : Int

def LockClause.NoWait (lock : LockClause) : LockClause :=
  { lock with Wait := LockNoWait }

def LockClause.SkipLocked (lock : LockClause) : LockClause :=
  { lock with Wait := LockSkipLocked }

def LockClause.OfTables (lock : LockClause) (tables : List String) : LockClause :=
  { lock with Tables := lock.Tables ++ tables }

def ForUpdate : LockClause := ⟨LockForUpdate, [], LockDefault⟩
def ForNoKeyUpdate : LockClause := ⟨LockForNoKeyUpdate, [], LockDefault⟩
def ForShare : LockClause := ⟨LockForShare, [], LockDefault⟩
def ForKeyShare : LockClause := ⟨LockForKeyShare, [], LockDefault⟩

/-- OrderColumn from jsonb.go. -/
structure OrderColumn where
  Column : String
  Desc : Bool

/-- OrderColumn.ToSQL from jsonb.go. -/
def OrderColumn.ToSQL (o : OrderColumn) : String :=
  o.Column ++ (if o.Desc then " DESC" else " ASC")

def Asc (col : String) : OrderColumn := ⟨col, false⟩

def Desc (col : String) : OrderColumn := ⟨col, true⟩

/-- Modelled from the spec: the WhereCondition type lives in a source
file of this repository that is not included (only jsonb.go is); the
spec describes a condition as a structured predicate of column,
operator and operand, where the operand is either a literal value or
an indirect reference to another column. -/
inductive Operand : Type where
  | lit (v : GoVal)
  | indirect (column : String)

/-- Modelled from the spec: a structured predicate (column, operator,
operand). -/
structure WhereCondition where
  Left : String
  Op : String
  Right : Operand

/-- Modelled from the spec: rendering one condition emits the operator
in fixed textual form, substituting a question-mark placeholder for a
literal operand (whose value is appended as a binding) and raw column
text for an indirect operand. -/
def renderCondition (c : WhereCondition) : String × List GoVal :=
  match c.Right with
  | Operand.lit v => (c.Left ++ " " ++ c.Op ++ " ?", [v])
  | Operand.indirect column => (c.Left ++ " " ++ c.Op ++ " " ++ column, [])

/-- Modelled from the spec: parseConditions turns a condition list into
one boolean SQL expression (conditions joined by AND) and returns the
bindings in the same left-to-right order as the predicate list. -/
def parseConditions (conds : List WhereCondition) : String × List GoVal :=
  (stringsJoin (conds.map (fun c => (renderCondition c).1)) " AND ",
   (conds.map (fun c => (renderCondition c).2)).flatten)

mutual

/-- SelectStmt from jsonb.go (the queryer handle, an external executor
concern, is omitted).  A structure cannot be recursive, so the record
is a one-constructor inductive; field accessors are defined below. -/
inductive SelectStmt : Type where
  | mk (IsDistinct : Bool) (DistinctColumns : List String) (Columns : List String)
       (Table : String) (Joins : List JoinClause) (Conditions : List WhereCondition)
       (Ordering : List OrderColumn) (Grouping : List String)
       (GroupConditions : List WhereCondition) (Locks : List LockClause)
       (LimitTo : Int) (OffsetFrom : Int) (OffsetRows : Int)

/-- JoinClause from jsonb.go (the Type field is named Typ, Type being
reserved in Lean). -/
inductive JoinClause : Type where
  | mk (Typ : Int) (Table : String) (ResultSet : Option SelectStmt)
       (Conditions : List WhereCondition)

end

def SelectStmt.IsDistinct : SelectStmt → Bool
  | .mk v _ _ _ _ _ _ _ _ _ _ _ _ => v

def SelectStmt.DistinctColumns : SelectStmt → List String
  | .mk _ v _ _ _ _ _ _ _ _ _ _ _ => v

def SelectStmt.Columns : SelectStmt → List String
  | .mk _ _ v _ _ _ _ _ _ _ _ _ _ => v

def SelectStmt.Table : SelectStmt → String
  | .mk _ _ _ v _ _ _ _ _ _ _ _ _ => v

def SelectStmt.Joins : SelectStmt → List JoinClause
  | .mk _ _ _ _ v _ _ _ _ _ _ _ _ => v

def SelectStmt.Conditions : SelectStmt → List WhereCondition
  | .mk _ _ _ _ _ v _ _ _ _ _ _ _ => v

def SelectStmt.Ordering : SelectStmt → List OrderColumn
  | .mk _ _ _ _ _ _ v _ _ _ _ _ _ => v

def SelectStmt.Grouping : SelectStmt → List String
  | .mk _ _ _ _ _ _ _ v _ _ _ _ _ => v

def SelectStmt.GroupConditions : SelectStmt → List WhereCondition
  | .mk _ _ _ _ _ _ _ _ v _ _ _ _ => v

def SelectStmt.Locks : SelectStmt → List LockClause
  | .mk _ _ _ _ _ _ _ _ _ v _ _ _ => v

def SelectStmt.LimitTo : SelectStmt → Int
  | .mk _ _ _ _ _ _ _ _ _ _ v _ _ => v

def SelectStmt.OffsetFrom : SelectStmt → Int
  | .mk _ _ _ _ _ _ _ _ _ _ _ v _ => v

def SelectStmt.OffsetRows : SelectStmt → Int
  | .mk _ _ _ _ _ _ _ _ _ _ _ _ v => v

def JoinClause.Typ : JoinClause → Int
  | .mk v _ _ _ => v

def JoinClause.Table : JoinClause → String
  | .mk _ v _ _ => v

def JoinClause.ResultSet : JoinClause → Option SelectStmt
  | .mk _ _ v _ => v

def JoinClause.Conditions : JoinClause → List WhereCondition
  | .mk _ _ _ v => v

/-- Select from jsonb.go: the factory bound to a database or
transaction handle; it records the requested columns (the handle
itself belongs to the external executor). -/
def Select (cols : List String) : SelectStmt :=
  .mk false [] cols "" [] [] [] [] [] [] 0 0 0

/-- Distinct from jsonb.go: replaces the distinct-on column list and
marks the statement distinct. -/
def SelectStmt.Distinct : SelectStmt → List String → SelectStmt
  | .mk _ _ cols table joins conds ord grp gconds locks lim offF offR, dcols =>
    .mk true dcols cols table joins conds ord grp gconds locks lim offF offR

/-- From from jsonb.go (named FromTable here, from being reserved in
Lean): sets the table to select from. -/
def SelectStmt.FromTable : SelectStmt → String → SelectStmt
  | .mk isD dCols cols _ joins conds ord grp gconds locks lim offF offR, table =>
    .mk isD dCols cols table joins conds ord grp gconds locks lim offF offR

/-- Join from jsonb.go: appends one join clause built from the given
type, table, optional result-set sub-statement and conditions. -/
def SelectStmt.Join : SelectStmt → Int → String → Option SelectStmt →
    List WhereCondition → SelectStmt
  | .mk isD dCols cols table joins conds ord grp gconds locks lim offF offR,
    joinType, jtable, resultSet, jconds =>
    .mk isD dCols cols table (joins ++ [JoinClause.mk joinType jtable resultSet jconds])
      conds ord grp gconds locks lim offF offR

/-- Where from jsonb.go: appends the given conditions. -/
def SelectStmt.Where : SelectStmt → List WhereCondition → SelectStmt
  | .mk isD dCols cols table joins conds ord grp gconds locks lim offF offR, cs =>
    .mk isD dCols cols table joins (conds ++ cs) ord grp gconds locks lim offF offR

/-- OrderBy from jsonb.go: appends the given order columns. -/
def SelectStmt.OrderBy : SelectStmt → List OrderColumn → SelectStmt
  | .mk isD dCols cols table joins conds ord grp gconds locks lim offF offR, cs =>
    .mk isD dCols cols table joins conds (ord ++ cs) grp gconds locks lim offF offR

/-- GroupBy from jsonb.go: appends the given grouping columns. -/
def SelectStmt.GroupBy : SelectStmt → List String → SelectStmt
  | .mk isD dCols cols table joins conds ord grp gconds locks lim offF offR, cs =>
    .mk isD dCols cols table joins conds ord (grp ++ cs) gconds locks lim offF offR

/-- Having from jsonb.go: appends the given group conditions. -/
def SelectStmt.Having : SelectStmt → List WhereCondition → SelectStmt
  | .mk isD dCols cols table joins conds ord grp gconds locks lim offF offR, cs =>
    .mk isD dCols cols table joins conds ord grp (gconds ++ cs) locks lim offF offR

/-- Limit from jsonb.go: sets the limit. -/
def SelectStmt.Limit : SelectStmt → Int → SelectStmt
  | .mk isD dCols cols table joins conds ord grp gconds locks _ offF offR, lim =>
    .mk isD dCols cols table joins conds ord grp gconds locks lim offF offR

/-- Offset from jsonb.go: sets the offset start; the variadic row
count, when supplied, replaces the stored row count, and is left
untouched otherwise. -/
def SelectStmt.Offset : SelectStmt → Int → List Int → SelectStmt
  | .mk isD dCols cols table joins conds ord grp gconds locks lim _ offR, start, rows =>
    .mk isD dCols cols table joins conds ord grp gconds locks lim start
      (match rows with | [] => offR | r :: _ => r)

/-- Lock from jsonb.go: appends the given lock clause. -/
def SelectStmt.Lock : SelectStmt → LockClause → SelectStmt
  | .mk isD dCols cols table joins conds ord grp gconds locks lim offF offR, lock =>
    .mk isD dCols cols table joins conds ord grp gconds (locks ++ [lock]) lim offF offR

/-- Text of the DISTINCT section of ToSQL (jsonb.go lines 377 to 384). -/
def distinctText (isDistinct : Bool) (cols : List String) : String :=
  if isDistinct then
    " DISTINCT" ++ (if cols.length > 0 then " ON (" ++ stringsJoin cols ", " ++ ")" else "")
  else ""

/-- Text of the column-list section of ToSQL (lines 386 to 392). -/
def columnsText (cols : List String) : String :=
  if cols.length = 0 then " *" else " " ++ stringsJoin cols ", "

/-- Text of the ORDER BY section of ToSQL (lines 434 to 441). -/
def orderingText (ord : List OrderColumn) : String :=
  if ord.length > 0 then
    " ORDER BY " ++ stringsJoin (ord.map OrderColumn.ToSQL) ", "
  else ""

/-- Text of the LIMIT section of ToSQL (lines 443 to 446). -/
def limitText (lim : Int) : String :=
  if lim > 0 then " LIMIT " ++ toString lim else ""

/-- Text of the OFFSET section of ToSQL (lines 448 to 455). -/
def offsetText (start rows : Int) : String :=
  if start > 0 then
    " OFFSET " ++ toString start ++ (if rows > 0 then " " ++ toString rows else "")
  else ""

/-- The strength keyword of a lock clause; none for a strength outside
the four recognized constants, on which the rendering loop continues
to the next lock (the switch default in lines 461 to 472). -/
def lockStrengthText (s : Int) : Option String :=
  if s = LockForUpdate then some "FOR UPDATE"
  else if s = LockForNoKeyUpdate then some "FOR NO KEY UPDATE"
  else if s = LockForShare then some "FOR SHARE"
  else if s = LockForKeyShare then some "FOR KEY SHARE"
  else none

/-- Wait-policy suffix of a lock clause (lines 481 to 488): nothing
for the default policy or an unrecognized value. -/
def lockWaitText (w : Int) : String :=
  if w = LockNoWait then " NOWAIT"
  else if w = LockSkipLocked then " SKIP LOCKED"
  else ""

/-- Text a single lock clause contributes (lines 457 to 489). -/
def lockText (lock : LockClause) : String :=
  match lockStrengthText lock.Strength with
  | none => ""
  | some s =>
    " " ++ s ++ (if lock.Tables.length > 0 then " OF " ++ stringsJoin lock.Tables ", " else "")
      ++ lockWaitText lock.Wait

/-- Text of the lock section of ToSQL: each lock in declaration
order. -/
def locksText : List LockClause → String
  | [] => ""
  | lock :: rest => lockText lock ++ locksText rest

mutual

/-- SelectStmt.ToSQL from jsonb.go: renders the statement to SQL text
plus bindings in one left-to-right pass; none models the panic raised
by JoinType.String on an out-of-range join type.  The rebind step
(lines 494 to 500) belongs to the external executor and is the
identity here. -/
def SelectStmt.ToSQL : SelectStmt → Option (String × List GoVal)
  | .mk isDistinct dCols cols table joins conds ord grp gconds locks lim offF offR =>
    match joinsSQL joins with
    | none => none
    | some jr =>
      some ("SELECT" ++ distinctText isDistinct dCols ++ columnsText cols
          ++ " FROM " ++ table ++ jr.1
          ++ (if conds.length > 0 then " WHERE " ++ (parseConditions conds).1 else "")
          ++ (if grp.length > 0 then " GROUP BY " ++ stringsJoin grp ", " else "")
          ++ (if gconds.length > 0 then " HAVING " ++ (parseConditions gconds).1 else "")
          ++ orderingText ord ++ limitText lim ++ offsetText offF offR ++ locksText locks,
        jr.2 ++ (if conds.length > 0 then (parseConditions conds).2 else [])
          ++ (if gconds.length > 0 then (parseConditions gconds).2 else []))

/-- One iteration of the joins loop of ToSQL (lines 396 to 413): the
join renders its conditions, then its clause text; a join on a result
set renders the sub-statement recursively and splices the
sub-statement's bindings before the join's own condition bindings. -/
def joinSQL1 : JoinClause → Option (String × List GoVal)
  | JoinClause.mk typ table rs conds =>
    match JoinType.String typ with
    | none => none
    | some ts =>
      match rs with
      | some sub =>
        match sub.ToSQL with
        | none => none
        | some rsr =>
          some (" " ++ ts ++ " (" ++ rsr.1 ++ ") " ++ table ++ " ON "
              ++ (parseConditions conds).1,
            rsr.2 ++ (parseConditions conds).2)
      | none =>
        some (" " ++ ts ++ " " ++ table ++ " ON " ++ (parseConditions conds).1,
          (parseConditions conds).2)

/-- The joins loop of ToSQL: each join in declaration order appends
its clause text to the buffer and its bindings to the binding list. -/
def joinsSQL : List JoinClause → Option (String × List GoVal)
  | [] => some ("", [])
  | j :: rest =>
    match joinSQL1 j, joinsSQL rest with
    | some a, some b => some (a.1 ++ b.1, a.2 ++ b.2)
    | _, _ => none

end

/-- The derived count statement that GetCount (jsonb.go lines 525 to
536) builds before delegating execution to the external executor: a
copy of the statement with the columns forced to COUNT(*) and the
limit, offset and ordering cleared. -/
def SelectStmt.countStmt : SelectStmt → SelectStmt
  | .mk isD dCols _ table joins conds _ grp gconds locks _ _ _ =>
    .mk isD dCols ["COUNT(*)"] table joins conds [] grp gconds locks 0 0 0

mutual

/-- All join types occurring in the statement, recursively through
result-set sub-statements, are among the four recognized values. -/
def SelectStmt.JoinsValid : SelectStmt → Prop
  | .mk _ _ _ _ joins _ _ _ _ _ _ _ _ => joinsListValid joins

def joinsListValid : List JoinClause → Prop
  | [] => True
  | JoinClause.mk typ _ rs _ :: rest =>
    (0 ≤ typ ∧ typ < 4)
      ∧ (match rs with | some sub => sub.JoinsValid | none => True)
      ∧ joinsListValid rest

end

theorem toSQL_mk (isD : Bool) (dCols cols : List String) (table : String)
    (joins : List JoinClause) (conds : List WhereCondition) (ord : List OrderColumn)
    (grp : List String) (gconds : List WhereCondition) (locks : List LockClause)
    (lim offF offR : Int) (jr : String × List GoVal)
    (hj : joinsSQL joins = some jr) :
    SelectStmt.ToSQL (.mk isD dCols cols table joins conds ord grp gconds locks lim offF offR)
      = some ("SELECT" ++ distinctText isD dCols ++ columnsText cols ++ " FROM " ++ table
            ++ jr.1
            ++ (if conds.length > 0 then " WHERE " ++ (parseConditions conds).1 else "")
            ++ (if grp.length > 0 then " GROUP BY " ++ stringsJoin grp ", " else "")
            ++ (if gconds.length > 0 then " HAVING " ++ (parseConditions gconds).1 else "")
            ++ orderingText ord ++ limitText lim ++ offsetText offF offR ++ locksText locks,
          jr.2 ++ (if conds.length > 0 then (parseConditions conds).2 else [])
            ++ (if gconds.length > 0 then (parseConditions gconds).2 else [])) := by
  simp [SelectStmt.ToSQL, hj]

/-- C7: the Where, Join, OrderBy, GroupBy, Having and Lock methods are
additive: a second call extends the ordered field set up by the first
call rather than replacing it, so consecutive calls compose into one
call on the concatenated argument lists. -/
theorem builder_methods_additive (stmt : SelectStmt)
    (xs ys : List WhereCondition) (os ps : List OrderColumn)
    (gs hs : List String) (hxs hys : List WhereCondition)
    (l1 l2 : LockClause) (t1 t2 : Int) (tb1 tb2 : String)
    (r1 r2 : Option SelectStmt) (c1 c2 : List WhereCondition) :
    ((stmt.Where xs).Where ys = stmt.Where (xs ++ ys)
      ∧ (stmt.Where xs).Conditions = stmt.Conditions ++ xs)
    ∧ ((stmt.OrderBy os).OrderBy ps = stmt.OrderBy (os ++ ps)
      ∧ (stmt.OrderBy os).Ordering = stmt.Ordering ++ os)
    ∧ ((stmt.GroupBy gs).GroupBy hs = stmt.GroupBy (gs ++ hs)
      ∧ (stmt.GroupBy gs).Grouping = stmt.Grouping ++ gs)
    ∧ ((stmt.Having hxs).Having hys = stmt.Having (hxs ++ hys)
      ∧ (stmt.Having hxs).GroupConditions = stmt.GroupConditions ++ hxs)
    ∧ (((stmt.Lock l1).Lock l2).Locks = stmt.Locks ++ [l1, l2]
      ∧ (stmt.Lock l1).Locks = stmt.Locks ++ [l1])
    ∧ (((stmt.Join t1 tb1 r1 c1).Join t2 tb2 r2 c2).Joins
        = stmt.Joins ++ [JoinClause.mk t1 tb1 r1 c1, JoinClause.mk t2 tb2 r2 c2]
      ∧ (stmt.Join t1 tb1 r1 c1).Joins = stmt.Joins ++ [JoinClause.mk t1 tb1 r1 c1]) := by
  obtain ⟨isD, dCols, cols, table, joins, conds, ord, grp, gconds, locks, lim, offF, offR⟩ := stmt
  refine ⟨⟨?_, ?_⟩, ⟨?_, ?_⟩, ⟨?_, ?_⟩, ⟨?_, ?_⟩, ⟨?_, ?_⟩, ⟨?_, ?_⟩⟩ <;>
    simp [SelectStmt.Where, SelectStmt.OrderBy, SelectStmt.GroupBy, SelectStmt.Having,
      SelectStmt.Lock, SelectStmt.Join, SelectStmt.Conditions, SelectStmt.Ordering,
      SelectStmt.Grouping, SelectStmt.GroupConditions, SelectStmt.Locks, SelectStmt.Joins]

/-- C8: OFFSET rendering: a zero start yields no OFFSET clause at all
(whatever the stored row count), a positive start with no positive row
count renders OFFSET start, and a positive start with a positive row
count renders OFFSET start rows; concretely Offset 0 adds nothing,
Offset 5 adds OFFSET 5 and Offset 5 2 adds OFFSET 5 2. -/
theorem offset_rendering (offR : Int) :
    offsetText 0 offR = ""
    ∧ (∀ start : Int, 0 < start → offsetText start 0 = " OFFSET " ++ toString start)
    ∧ (∀ start rows : Int, 0 < start → 0 < rows →
        offsetText start rows = " OFFSET " ++ toString start ++ " " ++ toString rows)
    ∧ (((Select []).FromTable "t").Offset 0 []).ToSQL = some ("SELECT * FROM t", [])
    ∧ (((Select []).FromTable "t").Offset 5 []).ToSQL
        = some ("SELECT * FROM t OFFSET 5", [])
    ∧ (((Select []).FromTable "t").Offset 5 [2]).ToSQL
        = some ("SELECT * FROM t OFFSET 5 2", []) := by
  refine ⟨by simp [offsetText], ?_, ?_, rfl, rfl, rfl⟩
  · intro start h1
    simp [offsetText, h1]
  · intro start rows h1 h2
    simp [offsetText, h1, h2, String.append_assoc]

/-- Witness for C8 at concrete offsets. -/
theorem offset_rendering_witness :
    offsetText 0 9 = "" ∧ (0 : Int) < 5
    ∧ offsetText 5 0 = " OFFSET " ++ toString (5 : Int)
    ∧ offsetText 5 2 = " OFFSET " ++ toString (5 : Int) ++ " " ++ toString (2 : Int)
    ∧ (((Select []).FromTable "t").Offset 0 []).ToSQL = some ("SELECT * FROM t", []) :=
  ⟨(offset_rendering 9).1, by norm_num,
   (offset_rendering 9).2.1 5 (by norm_num),
   (offset_rendering 9).2.2.1 5 2 (by norm_num) (by norm_num),
   (offset_rendering 9).2.2.2.1⟩

/-- C10: a call of Offset with only a start leaves the stored offset
row count unchanged while resetting the start, so Offset 5 2 followed
by Offset 7 renders OFFSET 7 2. -/
theorem offset_without_rows_keeps_rows (stmt : SelectStmt) (start : Int) :
    (stmt.Offset start []).OffsetRows = stmt.OffsetRows
    ∧ (stmt.Offset start []).OffsetFrom = start
    ∧ ((((Select []).FromTable "t").Offset 5 [2]).Offset 7 []).ToSQL
        = some ("SELECT * FROM t OFFSET 7 2", []) := by
  obtain ⟨isD, dCols, cols, table, joins, conds, ord, grp, gconds, locks, lim, offF, offR⟩ := stmt
  exact ⟨rfl, rfl, rfl⟩

/-- C3 as stated is false on the code: the zero value of LockStrength
is LockForUpdate, the first recognized strength, so a lock clause with
the zero-value strength is rendered as FOR UPDATE rather than being
skipped; attaching it changes the emitted text. -/
theorem lock_zero_value_rendered :
    (((Select []).FromTable "t").Lock (LockClause.mk 0 [] 0)).ToSQL
      = some ("SELECT * FROM t FOR UPDATE", [])
    ∧ ((Select []).FromTable "t").ToSQL = some ("SELECT * FROM t", [])
    ∧ (((Select []).FromTable "t").Lock (LockClause.mk 0 [] 0)).ToSQL
      ≠ ((Select []).FromTable "t").ToSQL :=
  ⟨rfl, rfl, by
    intro h
    rw [show (((Select []).FromTable "t").Lock (LockClause.mk 0 [] 0)).ToSQL
          = some ("SELECT * FROM t FOR UPDATE", []) from rfl,
        show ((Select []).FromTable "t").ToSQL = some ("SELECT * FROM t", []) from rfl] at h
    simp at h⟩

theorem locksText_skip (pre post : List LockClause) (lock : LockClause)
    (h : lockStrengthText lock.Strength = none) :
    locksText (pre ++ lock :: post) = locksText (pre ++ post) := by
  induction pre with
  | nil => simp [locksText, lockText, h]
  | cons l rest ih => simp [locksText, ih]

/-- C3 amended: for every attached lock clause whose Strength is
outside the four recognized strengths (the zero value being
LockForUpdate, which is recognized and rendered), ToSQL emits no text
for that lock clause and reports no error: the rendering with the lock
present equals the rendering with it removed. -/
theorem lock_unrecognized_skipped (isD : Bool) (dCols cols : List String)
    (table : String) (joins : List JoinClause) (conds : List WhereCondition)
    (ord : List OrderColumn) (grp : List String) (gconds : List WhereCondition)
    (pre post : List LockClause) (lim offF offR : Int) (lock : LockClause)
    (h : lockStrengthText lock.Strength = none) :
    SelectStmt.ToSQL (.mk isD dCols cols table joins conds ord grp gconds
        (pre ++ lock :: post) lim offF offR)
      = SelectStmt.ToSQL (.mk isD dCols cols table joins conds ord grp gconds
        (pre ++ post) lim offF offR) := by
  cases hj : joinsSQL joins with
  | none => simp [SelectStmt.ToSQL, hj]
  | some jr => simp [SelectStmt.ToSQL, hj, locksText_skip pre post lock h]

/-- Witness for the amended C3 at a concrete out-of-range strength. -/
theorem lock_unrecognized_skipped_witness :
    lockStrengthText (LockClause.mk 9 [] 0).Strength = none
    ∧ SelectStmt.ToSQL (.mk false [] [] "t" [] [] [] [] []
        ([] ++ LockClause.mk 9 [] 0 :: []) 0 0 0)
      = SelectStmt.ToSQL (.mk false [] [] "t" [] [] [] [] [] ([] ++ []) 0 0 0) :=
  ⟨rfl, lock_unrecognized_skipped false [] [] "t" [] [] [] [] [] [] [] 0 0 0
      (LockClause.mk 9 [] 0) rfl⟩

theorem joinsSQL_append (l1 l2 : List JoinClause) :
    joinsSQL (l1 ++ l2)
      = match joinsSQL l1, joinsSQL l2 with
        | some r1, some r2 => some (r1.1 ++ r2.1, r1.2 ++ r2.2)
        | _, _ => none := by
  induction l1 with
  | nil => cases h : joinsSQL l2 <;> simp [joinsSQL, h]
  | cons j rest ih =>
    cases ha : joinSQL1 j <;> cases h1 : joinsSQL rest <;> cases h2 : joinsSQL l2 <;>
      simp [joinsSQL, ha, h1, h2, ih, List.append_assoc, String.append_assoc]

/-- C2: for every statement containing a join whose source is an
embedded sub-statement, ToSQL appends the sub-statement's bindings to
the output binding sequence strictly before that join's own condition
bindings (after the bindings of the preceding joins and before those
of the following joins and of the WHERE and HAVING clauses). -/
theorem join_resultset_bindings_order (isD : Bool) (dCols cols : List String)
    (table : String) (pre rest : List JoinClause) (typ : Int) (jtable : String)
    (sub : SelectStmt) (jconds conds : List WhereCondition) (ord : List OrderColumn)
    (grp : List String) (gconds : List WhereCondition) (locks : List LockClause)
    (lim offF offR : Int) (preR subR restR : String × List GoVal) (ts : String)
    (hpre : joinsSQL pre = some preR)
    (hsub : sub.ToSQL = some subR)
    (hts : JoinType.String typ = some ts)
    (hrest : joinsSQL rest = some restR) :
    ∃ sql : String,
      SelectStmt.ToSQL (.mk isD dCols cols table
          (pre ++ JoinClause.mk typ jtable (some sub) jconds :: rest)
          conds ord grp gconds locks lim offF offR)
        = some (sql,
            preR.2 ++ ((subR.2 ++ (parseConditions jconds).2) ++ restR.2)
              ++ (if conds.length > 0 then (parseConditions conds).2 else [])
              ++ (if gconds.length > 0 then (parseConditions gconds).2 else [])) := by
  have h1 : joinSQL1 (JoinClause.mk typ jtable (some sub) jconds)
      = some (" " ++ ts ++ " (" ++ subR.1 ++ ") " ++ jtable ++ " ON "
            ++ (parseConditions jconds).1,
          subR.2 ++ (parseConditions jconds).2) := by
    simp [joinSQL1, hts, hsub]
  have h2 : joinsSQL (JoinClause.mk typ jtable (some sub) jconds :: rest)
      = some ((" " ++ ts ++ " (" ++ subR.1 ++ ") " ++ jtable ++ " ON "
            ++ (parseConditions jconds).1) ++ restR.1,
          (subR.2 ++ (parseConditions jconds).2) ++ restR.2) := by
    simp [joinsSQL, h1, hrest]
  have h3 : joinsSQL (pre ++ JoinClause.mk typ jtable (some sub) jconds :: rest)
      = some (preR.1 ++ ((" " ++ ts ++ " (" ++ subR.1 ++ ") " ++ jtable ++ " ON "
            ++ (parseConditions jconds).1) ++ restR.1),
          preR.2 ++ ((subR.2 ++ (parseConditions jconds).2) ++ restR.2)) := by
    rw [joinsSQL_append]
    simp [hpre, h2]
  exact ⟨_, toSQL_mk isD dCols cols table _ conds ord grp gconds locks lim offF offR _ h3⟩

/-- Witness for C2: one inner join on a sub-statement carrying one
WHERE binding, with one literal join condition binding after it. -/
theorem join_resultset_bindings_order_witness :
    ∃ sql : String,
      SelectStmt.ToSQL (.mk false [] ["a"] "t"
          ([] ++ JoinClause.mk 0 "s"
              (some (.mk false [] ["x"] "u" []
                [WhereCondition.mk "x" "=" (Operand.lit (GoVal.scalar "7"))]
                [] [] [] [] 0 0 0))
              [WhereCondition.mk "t.b" "=" (Operand.lit (GoVal.scalar "1"))] :: [])
          [] [] [] [] [] 0 0 0)
        = some (sql, [GoVal.scalar "7", GoVal.scalar "1"]) := by
  obtain ⟨sql, h⟩ := join_resultset_bindings_order false [] ["a"] "t" [] [] 0 "s"
      (.mk false [] ["x"] "u" []
        [WhereCondition.mk "x" "=" (Operand.lit (GoVal.scalar "7"))]
        [] [] [] [] 0 0 0)
      [WhereCondition.mk "t.b" "=" (Operand.lit (GoVal.scalar "1"))]
      [] [] [] [] [] 0 0 0
      ("", []) ("SELECT x FROM u WHERE x = ?", [GoVal.scalar "7"]) ("", []) "INNER JOIN"
      rfl rfl rfl rfl
  refine ⟨sql, ?_⟩
  rw [h]
  simp [parseConditions, renderCondition]

/-- C4 as stated is false on the code: JoinType.String indexes a
four-element list with the join type, so rendering a statement whose
join carries the out-of-range JoinType value 4 aborts (a Go index
panic, modelled as none) instead of returning SQL text. -/
theorem toSQL_arbitrary_join_type_aborts :
    (((Select []).FromTable "t").Join 4 "s" none []).ToSQL = none := rfl

/- A weight on the statement tree for inductions over the join
nesting. -/
mutual

def stmtWeight : SelectStmt → Nat
  | .mk _ _ _ _ joins _ _ _ _ _ _ _ _ => 1 + joinsWeight joins

def rsWeight : Option SelectStmt → Nat
  | none => 0
  | some sub => stmtWeight sub

def joinsWeight : List JoinClause → Nat
  | [] => 0
  | .mk _ _ rs _ :: rest => 1 + rsWeight rs + joinsWeight rest

end

theorem joinsSQL_cons (j : JoinClause) (rest : List JoinClause)
    (a b : String × List GoVal)
    (h1 : joinSQL1 j = some a) (h2 : joinsSQL rest = some b) :
    joinsSQL (j :: rest) = some (a.1 ++ b.1, a.2 ++ b.2) := by
  simp [joinsSQL, h1, h2]

theorem joinSQL1_plain (typ : Int) (tb : String)
    (conds : List WhereCondition) (ts : String)
    (hts : JoinType.String typ = some ts) :
    joinSQL1 (JoinClause.mk typ tb none conds)
      = some (" " ++ ts ++ " " ++ tb ++ " ON " ++ (parseConditions conds).1,
          (parseConditions conds).2) := by
  simp [joinSQL1, hts]

theorem joinSQL1_rs (typ : Int) (tb : String) (sub : SelectStmt)
    (conds : List WhereCondition) (ts : String) (r : String × List GoVal)
    (hts : JoinType.String typ = some ts) (hsub : sub.ToSQL = some r) :
    joinSQL1 (JoinClause.mk typ tb (some sub) conds)
      = some (" " ++ ts ++ " (" ++ r.1 ++ ") " ++ tb ++ " ON "
            ++ (parseConditions conds).1,
          r.2 ++ (parseConditions conds).2) := by
  simp [joinSQL1, hts, hsub]

theorem joinTypeString_total (typ : Int) (h0 : 0 ≤ typ) (h4 : typ < 4) :
    ∃ ts, JoinType.String typ = some ts := by
  have hcases : typ = 0 ∨ typ = 1 ∨ typ = 2 ∨ typ = 3 := by omega
  rcases hcases with h | h | h | h <;> subst h <;> exact ⟨_, rfl⟩

theorem joinsSQL_total_aux : ∀ (n : Nat) (joins : List JoinClause),
    joinsWeight joins ≤ n → joinsListValid joins → ∃ r, joinsSQL joins = some r := by
  intro n
  induction n with
  | zero =>
    intro joins h hv
    cases joins with
    | nil => exact ⟨("", []), by simp [joinsSQL]⟩
    | cons j rest =>
      obtain ⟨typ, tb, rs, conds⟩ := j
      simp [joinsWeight] at h
  | succ n ih =>
    intro joins h hv
    cases joins with
    | nil => exact ⟨("", []), by simp [joinsSQL]⟩
    | cons j rest =>
      obtain ⟨typ, tb, rs, conds⟩ := j
      cases rs with
      | none =>
        simp only [joinsListValid] at hv
        obtain ⟨⟨h0, h4⟩, _, hrest⟩ := hv
        obtain ⟨ts, hts⟩ := joinTypeString_total typ h0 h4
        have hsz_rest : joinsWeight rest ≤ n := by
          simp [joinsWeight, rsWeight] at h
          omega
        obtain ⟨rr, hrr⟩ := ih rest hsz_rest hrest
        exact ⟨_, joinsSQL_cons _ rest _ rr (joinSQL1_plain typ tb conds ts hts) hrr⟩
      | some sub =>
        simp only [joinsListValid] at hv
        obtain ⟨⟨h0, h4⟩, hrs, hrest⟩ := hv
        obtain ⟨ts, hts⟩ := joinTypeString_total typ h0 h4
        have hsz_rest : joinsWeight rest ≤ n := by
          simp [joinsWeight, rsWeight] at h
          omega
        obtain ⟨rr, hrr⟩ := ih rest hsz_rest hrest
        obtain ⟨isD, dCols, cols, table, sjoins, sconds, sord, sgrp,
          sgconds, slocks, slim, soffF, soffR⟩ := sub
        have hvs : joinsListValid sjoins := by
          simpa [SelectStmt.JoinsValid] using hrs
        have hsz : joinsWeight sjoins ≤ n := by
          simp [joinsWeight, rsWeight, stmtWeight] at h
          omega
        obtain ⟨sr, hsr⟩ := ih sjoins hsz hvs
        have hsub := toSQL_mk isD dCols cols table sjoins sconds sord sgrp sgconds
          slocks slim soffF soffR sr hsr
        exact ⟨_, joinsSQL_cons _ rest _ rr
          (joinSQL1_rs typ tb _ conds ts _ hts hsub) hrr⟩

/-- C4 amended: ToSQL is total on every statement all of whose joins,
recursively through result-set sub-statements, carry one of the four
recognized JoinType values 0 to 3; it never fails otherwise and passes
table names (valid or not) through verbatim, as the second conjunct
shows for a statement rendered from an arbitrary table string. -/
theorem toSQL_total_of_valid_joins :
    (∀ stmt : SelectStmt, stmt.JoinsValid → ∃ r, stmt.ToSQL = some r)
    ∧ (∀ table : String,
        ((Select []).FromTable table).ToSQL = some ("SELECT * FROM " ++ table, [])) := by
  constructor
  · intro stmt hv
    obtain ⟨isD, dCols, cols, table, joins, conds, ord, grp, gconds, locks,
      lim, offF, offR⟩ := stmt
    have hvj : joinsListValid joins := by
      simpa [SelectStmt.JoinsValid] using hv
    obtain ⟨jr, hjr⟩ := joinsSQL_total_aux (joinsWeight joins) joins (Nat.le_refl _) hvj
    exact ⟨_, toSQL_mk isD dCols cols table joins conds ord grp gconds locks
      lim offF offR jr hjr⟩
  · intro table
    have h := toSQL_mk false [] [] table [] [] [] [] [] [] 0 0 0 ("", []) rfl
    rw [show ((Select []).FromTable table)
          = SelectStmt.mk false [] [] table [] [] [] [] [] [] 0 0 0 from rfl, h]
    simp [distinctText, columnsText, orderingText, limitText, offsetText, locksText]

/-- Witness for the amended C4 at a concrete statement with one valid
join and at a concrete table name. -/
theorem toSQL_total_of_valid_joins_witness :
    ((((Select []).FromTable "t").Join 2 "s" none []).JoinsValid
      ∧ ∃ r, (((Select []).FromTable "t").Join 2 "s" none []).ToSQL = some r)
    ∧ ((Select []).FromTable "a b; DROP").ToSQL
        = some ("SELECT * FROM " ++ "a b; DROP", []) :=
  ⟨⟨by simp [SelectStmt.Join, Select, SelectStmt.FromTable, SelectStmt.JoinsValid,
        joinsListValid],
    toSQL_total_of_valid_joins.1 _ (by
      simp [SelectStmt.Join, Select, SelectStmt.FromTable, SelectStmt.JoinsValid,
        joinsListValid])⟩,
   toSQL_total_of_valid_joins.2 "a b; DROP"⟩

/-- C5: the statement GetCount derives and renders is a clone of the
original whose columns are forced to COUNT(*) and whose limit, offset
and ordering are cleared, so its SQL has no LIMIT, OFFSET or ORDER BY
clause, while the WHERE, JOIN, GROUP BY and HAVING clauses (and their
bindings) of the original are preserved; the original statement is a
separate value, left as it was. -/
theorem getCount_query (isD : Bool) (dCols cols : List String) (table : String)
    (joins : List JoinClause) (conds : List WhereCondition) (ord : List OrderColumn)
    (grp : List String) (gconds : List WhereCondition) (locks : List LockClause)
    (lim offF offR : Int) (jr : String × List GoVal)
    (hj : joinsSQL joins = some jr) :
    (SelectStmt.mk isD dCols cols table joins conds ord grp gconds locks
        lim offF offR).countStmt
      = SelectStmt.mk isD dCols ["COUNT(*)"] table joins conds [] grp gconds locks 0 0 0
    ∧ (SelectStmt.mk isD dCols cols table joins conds ord grp gconds locks
        lim offF offR).countStmt.ToSQL
      = some ("SELECT" ++ distinctText isD dCols ++ columnsText ["COUNT(*)"]
            ++ " FROM " ++ table ++ jr.1
            ++ (if conds.length > 0 then " WHERE " ++ (parseConditions conds).1 else "")
            ++ (if grp.length > 0 then " GROUP BY " ++ stringsJoin grp ", " else "")
            ++ (if gconds.length > 0 then " HAVING " ++ (parseConditions gconds).1 else "")
            ++ locksText locks,
          jr.2 ++ (if conds.length > 0 then (parseConditions conds).2 else [])
            ++ (if gconds.length > 0 then (parseConditions gconds).2 else []))
    ∧ columnsText ["COUNT(*)"] = " COUNT(*)" := by
  refine ⟨rfl, ?_, rfl⟩
  have h := toSQL_mk isD dCols ["COUNT(*)"] table joins conds [] grp gconds locks
    0 0 0 jr hj
  rw [show (SelectStmt.mk isD dCols cols table joins conds ord grp gconds locks
        lim offF offR).countStmt
      = SelectStmt.mk isD dCols ["COUNT(*)"] table joins conds [] grp gconds locks 0 0 0
    from rfl, h]
  simp [orderingText, limitText, offsetText]

/-- Witness for C5 at a concrete statement with a where condition, an
ordering, a limit and an offset. -/
theorem getCount_query_witness :
    (SelectStmt.mk false [] ["id"] "t" []
        [WhereCondition.mk "a" "=" (Operand.lit (GoVal.scalar "1"))]
        [OrderColumn.mk "id" false] [] [] [] 10 5 0).countStmt
      = SelectStmt.mk false [] ["COUNT(*)"] "t" []
          [WhereCondition.mk "a" "=" (Operand.lit (GoVal.scalar "1"))] [] [] [] [] 0 0 0
    ∧ (SelectStmt.mk false [] ["id"] "t" []
        [WhereCondition.mk "a" "=" (Operand.lit (GoVal.scalar "1"))]
        [OrderColumn.mk "id" false] [] [] [] 10 5 0).countStmt.ToSQL
      = some ("SELECT" ++ distinctText false [] ++ columnsText ["COUNT(*)"]
            ++ " FROM " ++ "t" ++ ("" : String)
            ++ (if [WhereCondition.mk "a" "=" (Operand.lit (GoVal.scalar "1"))].length > 0
                then " WHERE " ++ (parseConditions
                  [WhereCondition.mk "a" "=" (Operand.lit (GoVal.scalar "1"))]).1 else "")
            ++ (if ([] : List String).length > 0
                then " GROUP BY " ++ stringsJoin [] ", " else "")
            ++ (if ([] : List WhereCondition).length > 0
                then " HAVING " ++ (parseConditions []).1 else "")
            ++ locksText [],
          (("", [] ) : String × List GoVal).2
            ++ (if [WhereCondition.mk "a" "=" (Operand.lit (GoVal.scalar "1"))].length > 0
                then (parseConditions
                  [WhereCondition.mk "a" "=" (Operand.lit (GoVal.scalar "1"))]).2 else [])
            ++ (if ([] : List WhereCondition).length > 0
                then (parseConditions []).2 else [])) := by
  have h := getCount_query false [] ["id"] "t" []
    [WhereCondition.mk "a" "=" (Operand.lit (GoVal.scalar "1"))]
    [OrderColumn.mk "id" false] [] [] [] 10 5 0 ("", []) rfl
  exact ⟨h.1, h.2.1⟩

mutual

/-- State-passing embedding of SelectStmt.ToSQL: the receiver is
threaded through the computation and returned next to the result; the
Go method reads its receiver and the sub-receivers of result-set joins
but never writes them, which the agreement theorem below records. -/
def SelectStmt.ToSQLRun : SelectStmt → Option (String × List GoVal) × SelectStmt
  | .mk isDistinct dCols cols table joins conds ord grp gconds locks lim offF offR =>
    let jr := joinsRun joins
    ((match jr.1 with
      | none => none
      | some r =>
        some ("SELECT" ++ distinctText isDistinct dCols ++ columnsText cols
            ++ " FROM " ++ table ++ r.1
            ++ (if conds.length > 0 then " WHERE " ++ (parseConditions conds).1 else "")
            ++ (if grp.length > 0 then " GROUP BY " ++ stringsJoin grp ", " else "")
            ++ (if gconds.length > 0 then " HAVING " ++ (parseConditions gconds).1 else "")
            ++ orderingText ord ++ limitText lim ++ offsetText offF offR ++ locksText locks,
          r.2 ++ (if conds.length > 0 then (parseConditions conds).2 else [])
            ++ (if gconds.length > 0 then (parseConditions gconds).2 else []))),
     .mk isDistinct dCols cols table jr.2 conds ord grp gconds locks lim offF offR)

/-- State-passing embedding of one iteration of the joins loop. -/
def joinRun1 : JoinClause → Option (String × List GoVal) × JoinClause
  | JoinClause.mk typ table rs conds =>
    match rs with
    | some sub =>
      let sr := sub.ToSQLRun
      ((match JoinType.String typ with
        | none => none
        | some ts =>
          match sr.1 with
          | none => none
          | some rsr =>
            some (" " ++ ts ++ " (" ++ rsr.1 ++ ") " ++ table ++ " ON "
                ++ (parseConditions conds).1,
              rsr.2 ++ (parseConditions conds).2)),
       JoinClause.mk typ table (some sr.2) conds)
    | none =>
      ((match JoinType.String typ with
        | none => none
        | some ts =>
          some (" " ++ ts ++ " " ++ table ++ " ON " ++ (parseConditions conds).1,
            (parseConditions conds).2)),
       JoinClause.mk typ table none conds)

/-- State-passing embedding of the joins loop. -/
def joinsRun : List JoinClause → Option (String × List GoVal) × List JoinClause
  | [] => (some ("", []), [])
  | j :: rest =>
    let a := joinRun1 j
    let b := joinsRun rest
    ((match a.1, b.1 with
      | some x, some y => some (x.1 ++ y.1, x.2 ++ y.2)
      | _, _ => none),
     a.2 :: b.2)

end

theorem toSQLRun_eq_of_joinsRun (isD : Bool) (dCols cols : List String)
    (table : String) (joins : List JoinClause) (conds : List WhereCondition)
    (ord : List OrderColumn) (grp : List String) (gconds : List WhereCondition)
    (locks : List LockClause) (lim offF offR : Int)
    (h : joinsRun joins = (joinsSQL joins, joins)) :
    SelectStmt.ToSQLRun (.mk isD dCols cols table joins conds ord grp gconds locks
        lim offF offR)
      = (SelectStmt.ToSQL (.mk isD dCols cols table joins conds ord grp gconds locks
          lim offF offR),
        .mk isD dCols cols table joins conds ord grp gconds locks lim offF offR) := by
  cases hq : joinsSQL joins with
  | none => simp [SelectStmt.ToSQLRun, SelectStmt.ToSQL, h, hq]
  | some jr => simp [SelectStmt.ToSQLRun, SelectStmt.ToSQL, h, hq]

theorem joinsRun_eq_aux : ∀ (n : Nat) (l : List JoinClause), joinsWeight l ≤ n →
    joinsRun l = (joinsSQL l, l) := by
  intro n
  induction n with
  | zero =>
    intro l h
    cases l with
    | nil => simp [joinsRun, joinsSQL]
    | cons j rest =>
      obtain ⟨typ, tb, rs, conds⟩ := j
      simp [joinsWeight] at h
  | succ n ih =>
    intro l h
    cases l with
    | nil => simp [joinsRun, joinsSQL]
    | cons j rest =>
      obtain ⟨typ, tb, rs, conds⟩ := j
      have hrest : joinsWeight rest ≤ n := by
        simp [joinsWeight] at h
        omega
      have hr := ih rest hrest
      cases rs with
      | none =>
        cases hts : JoinType.String typ <;>
          simp [joinsRun, joinsSQL, joinRun1, joinSQL1, hts, hr]
      | some sub =>
        obtain ⟨isD, dCols, cols, table, sjoins, sconds, sord, sgrp, sgconds,
          slocks, slim, soffF, soffR⟩ := sub
        have hsj : joinsWeight sjoins ≤ n := by
          simp [joinsWeight, rsWeight, stmtWeight] at h
          omega
        have hs := ih sjoins hsj
        have hrun := toSQLRun_eq_of_joinsRun isD dCols cols table sjoins sconds sord
          sgrp sgconds slocks slim soffF soffR hs
        cases hts : JoinType.String typ with
        | none => simp [joinsRun, joinsSQL, joinRun1, joinSQL1, hts, hr, hrun]
        | some ts =>
          cases hq : SelectStmt.ToSQL (.mk isD dCols cols table sjoins sconds sord
              sgrp sgconds slocks slim soffF soffR) <;>
            simp [joinsRun, joinsSQL, joinRun1, joinSQL1, hts, hr, hrun, hq]

theorem toSQLRun_eq (stmt : SelectStmt) : stmt.ToSQLRun = (stmt.ToSQL, stmt) := by
  obtain ⟨isD, dCols, cols, table, joins, conds, ord, grp, gconds, locks,
    lim, offF, offR⟩ := stmt
  exact toSQLRun_eq_of_joinsRun isD dCols cols table joins conds ord grp gconds
    locks lim offF offR (joinsRun_eq_aux (joinsWeight joins) joins (Nat.le_refl _))

/-- C6: ToSQL never mutates the statement it renders: in the
state-passing embedding of the renderer the receiver, with its joins
and embedded sub-statements, comes back unchanged, and rendering the
returned receiver again yields the identical SQL text and binding
sequence. -/
theorem toSQL_does_not_mutate (stmt : SelectStmt) :
    stmt.ToSQLRun.2 = stmt
    ∧ stmt.ToSQLRun.1 = stmt.ToSQL
    ∧ stmt.ToSQLRun.2.ToSQL = stmt.ToSQL := by
  have h := toSQLRun_eq stmt
  rw [h]
  exact ⟨rfl, rfl, rfl⟩

end Sqlz
